import Mathlib

/-!
Verification of the jqsh interactive shell (a wrapper around the jq command
line utility) against its natural-language specification.

The development shallowly embeds the relevant parts of the Go sources:

- src/jq.go: the filter stack (JQStack, Push, JoinFilter, the fragment
  collection JQFilter) and the Execute wrapper around the external jq
  process;
- src/shell.go: SimpleShellReader.ReadCommand, the line-oriented command
  grammar;
- src/commands.go: the command handlers cmdPop, cmdPush, cmdPeek, cmdLoad
  and the dispatch library (Lib.Register, Lib.RegisterHelp, Lib.taken,
  Lib.exec);
- src/jqsh.go: isShellExit, ClearInput, SetInputFile, and the decision
  logic of one iteration of JQShell.loop.

External effects (the jq subprocess, the pager, the file system) enter the
model as explicit parameters or as returned event lists, so every
definition is executable.  Machine integers are modelled as Int/Nat with
explicit range checks where the source checks ranges.
-/

namespace Jqsh

/-- Error values observed by the shell.  Go compares errors by identity;
the distinguished package-level sentinels (ShellExit, ErrStackEmpty) are
separate constructors, ExecError mirrors the composite struct of
src/jqsh.go (command name+args wrapping a cause), and errorf covers the
ad hoc fmt.Errorf values, compared by message. -/
inductive GoError where
  | shellExit
  | stackEmpty
  | execError (cmd : List String) (err : GoError)
  | errorf (msg : String)
deriving DecidableEq, Repr

/-- Recursion of isShellExit (src/jqsh.go 225-236) over a non-nil error:
true for the ShellExit sentinel, unwraps ExecError, false otherwise. -/
def isShellExitErr : GoError → Bool
  | GoError.shellExit => true
  | GoError.execError _ e => isShellExitErr e
  | GoError.stackEmpty => false
  | GoError.errorf _ => false

/-- Embedding of isShellExit (src/jqsh.go 225-236); none models a nil
error. -/
def isShellExit : Option GoError → Bool
  | none => false
  | some e => isShellExitErr e

/-- A Go Filter value is modelled by the fragment list its JQFilter method
returns (src/jq.go 239-241). -/
abbrev GoFilter := List String

/-- FilterString s contributes the single fragment s (src/jq.go 253-257). -/
def FilterString (s : String) : GoFilter := [s]

/-- The filter stack (src/jq.go 259-261): an ordered sequence of filters,
the last element the most recently pushed. -/
structure JQStack where
  pipe : List GoFilter
deriving DecidableEq, Repr

/-- JQStack.JQFilter (src/jq.go 264-273): appends the fragments of every
stacked filter in push order.  (The nil-receiver special case of the Go
method cannot arise in the model.) -/
def JQStack.JQFilter (s : JQStack) : List String :=
  s.pipe.foldl (fun args cmd => args ++ cmd) []

/-- JQStack.Push (src/jq.go 275-277): appends at the end. -/
def JQStack.Push (s : JQStack) (cmd : GoFilter) : JQStack :=
  JQStack.mk (s.pipe ++ [cmd])

/-- Modelled from the spec: the JQStack.Pop(n int) method invoked by
cmdPop, cmdPush and cmdPeek (src/commands.go) is not among the source
files; only a zero-argument Pop from an older revision of src/jq.go is.
Spec section 4.1: pop removes min(n, depth) most-recently-pushed entries
and signals StackEmpty only when depth is already zero before any
removal. -/
def JQStack.Pop (s : JQStack) (n : Nat) : JQStack × Option GoError :=
  if s.pipe.length = 0 then (s, some GoError.stackEmpty)
  else (JQStack.mk (s.pipe.take (s.pipe.length - min n s.pipe.length)), none)

/-- Modelled from the spec: JQStack.PopAll, called by cmdLoad and cmdExec,
is likewise absent from the sources.  Spec section 4.1: clears
unconditionally, always succeeds. -/
def JQStack.PopAll (_s : JQStack) : JQStack :=
  JQStack.mk []

/-- Embedding of strings.Join, used by JoinFilter (src/jq.go 250). -/
def goStringsJoin (elems : List String) (sep : String) : String :=
  match elems with
  | [] => ""
  | e :: rest => rest.foldl (fun acc s => acc ++ sep ++ s) e

/-- FilterJoinString (src/jq.go 243). -/
def FilterJoinString : String := " | "

/-- JoinFilter (src/jq.go 245-251) applied to the fragment list produced
by the argument's JQFilter method: "." for zero fragments, otherwise the
fragments joined with " | ". -/
def JoinFilter (fs : List String) : String :=
  if fs.length = 0 then "." else goStringsJoin fs FilterJoinString

/-- Rendering of the specification's phrase "fragments joined in push
order with the separator", used to compare JoinFilter against the claim's
wording. -/
def joinedSpec (sep : String) : List String → String
  | [] => ""
  | [x] => x
  | x :: y :: xs => x ++ sep ++ joinedSpec sep (y :: xs)

/-- Value of a digit run, most significant first. -/
def digitsToNat (ds : List Char) : Nat :=
  ds.foldl (fun a c => a * 10 + (c.toNat - 48)) 0

/-- Embedding of strconv.Atoi as used by cmdPop (src/commands.go 362):
optional sign, at least one decimal digit, 64-bit range; none models a
non-nil parse error. -/
def goAtoi (s : String) : Option Int :=
  let cs := s.toList
  let signDigits : Bool × List Char :=
    match cs with
    | '+' :: r => (false, r)
    | '-' :: r => (true, r)
    | r => (false, r)
  let neg := signDigits.1
  let ds := signDigits.2
  if ds.isEmpty then none
  else if ds.all Char.isDigit then
    let v : Int := Int.ofNat (digitsToNat ds)
    let v := if neg then -v else v
    if v < -(2 ^ 63) ∨ 2 ^ 63 ≤ v then none else some v
  else none

/-- Tail of cmdPop (src/commands.go 370-377) after the count has been
parsed: pop, propagate a pop error, otherwise run the implicit :write
unless -q was given.  The write invokes the external jq process, so its
outcome enters as the writeErr parameter; it does not touch the stack. -/
def cmdPopN (n : Nat) (quiet : Bool) (writeErr : Option GoError) (s : JQStack) :
    JQStack × Option GoError :=
  let r := s.Pop n
  match r.2 with
  | some e => (r.1, some e)
  | none => if quiet then (r.1, none) else (r.1, writeErr)

/-- Embedding of cmdPop (src/commands.go 342-378) after flag parsing:
args are the positional arguments, quiet is the -q flag.  More than one
argument, a non-integer argument and a negative count are recoverable
errors; otherwise the parsed count (default 1) is handed to Pop. -/
def cmdPop (args : List String) (quiet : Bool) (writeErr : Option GoError)
    (s : JQStack) : JQStack × Option GoError :=
  match args with
  | _ :: _ :: _ => (s, some (GoError.errorf ("too many arguments given")))
  | [] => cmdPopN 1 quiet writeErr s
  | [a] =>
    match goAtoi a with
    | none => (s, some (GoError.errorf ("argument must be an integer")))
    | some n =>
      if n < 0 then (s, some (GoError.errorf ("argument must be positive")))
      else cmdPopN n.toNat quiet writeErr s

/-- Embedding of unicode.IsSpace for the trimming and tokenisation done by
ReadCommand and strings.Fields: Go's White_Space property. -/
def goIsSpace (c : Char) : Bool :=
  let n := c.toNat
  (9 ≤ n && n ≤ 13) || n = 32 || n = 133 || n = 160 || n = 5760 ||
    (8192 ≤ n && n ≤ 8202) || n = 8232 || n = 8233 || n = 8239 || n = 8287 ||
    n = 12288

/-- Embedding of bytes.TrimFunc(bs, unicode.IsSpace)
(src/shell.go 118): strip leading and trailing white space. -/
def trimGo (l : List Char) : List Char :=
  ((l.dropWhile goIsSpace).reverse.dropWhile goIsSpace).reverse

/-- Accumulator-passing splitter behind goFields. -/
def goFieldsAux : List Char → List Char → List String
  | [], acc => if acc.isEmpty then [] else [String.mk acc.reverse]
  | c :: cs, acc =>
    if goIsSpace c then
      if acc.isEmpty then goFieldsAux cs []
      else String.mk acc.reverse :: goFieldsAux cs []
    else goFieldsAux cs (c :: acc)

/-- Embedding of strings.Fields (src/shell.go 149): split around runs of
white space, dropping empty fields. -/
def goFields (bs : List Char) : List String :=
  goFieldsAux bs []

/-- Embedding of bytes.Index(bs, []byte plus) (src/shell.go 142): index of
the first '+', none when absent. -/
def indexOfPlus : List Char → Option Nat
  | [] => none
  | c :: cs => if c = '+' then some 0 else (indexOfPlus cs).map (· + 1)

/-- Explicit-command tokenisation of ReadCommand (src/shell.go 141-153),
applied to the text after the leading colon: when the first '+' sits at a
positive index, the text before it is whitespace-split and the text after
it becomes one final verbatim argument; otherwise (no '+', or '+' at
index 0) the whole text is whitespace-split. -/
def colonTokenize (bs : List Char) : List String :=
  match indexOfPlus bs with
  | some i =>
    if 0 < i then goFields (bs.take i) ++ [String.mk (bs.drop (i + 1))]
    else goFields bs
  | none => goFields bs

/-- Mapping of one trimmed, non-empty line to a command
(src/shell.go 125-153): ".." is pop, "." is write, a leading '?' is peek
with the untokenised remainder, any other line not starting with ':' is
push with the whole line, and a ':' line is tokenised by colonTokenize. -/
def lineCmd (t : List Char) : List String :=
  if t = ['.', '.'] then ["pop"]
  else if t = ['.'] then ["write"]
  else
    match t with
    | [] => []
    | c :: cs =>
      if c = '?' then ["peek", String.mk cs]
      else if c ≠ ':' then ["push", String.mk (c :: cs)]
      else colonTokenize cs

/-- Result of ReadCommand: the command (none when no command was
produced), the eof flag, and whether a non-nil error (io.EOF in the pure
model) was returned. -/
structure ReadRes where
  cmd : Option (List String)
  eof : Bool
  errEOF : Bool
deriving DecidableEq, Repr

/-- Embedding of bufio.Reader.ReadBytes('\n') (src/shell.go 106) on the
remaining input: the line including its newline, the rest of the input,
and the eof flag (true exactly when no newline was found, in which case
the error returned by ReadBytes is io.EOF). -/
def readBytesNL : List Char → List Char × List Char × Bool
  | [] => ([], [], true)
  | c :: cs =>
    if c = '\n' then ([c], cs, false)
    else
      let r := readBytesNL cs
      (c :: r.1, r.2.1, r.2.2)

/-- One application of SimpleShellReader.ReadCommand (src/shell.go
104-154), structured on a fuel bound so the recursion on blank lines
(line 124 of the source calls ReadCommand again) is structural; each
retry consumes at least the blank line's newline, so any fuel above the
input length is enough (readCommand below supplies it). -/
def readCommandAux : Nat → List Char → ReadRes
  | 0, _ => ReadRes.mk none true true
  | fuel + 1, s =>
    let r := readBytesNL s
    let bs := r.1
    let rest := r.2.1
    let eof := r.2.2
    if eof && bs.isEmpty then ReadRes.mk none true true
    else
      let t := trimGo bs
      if t.isEmpty then
        if eof then ReadRes.mk none true false
        else readCommandAux fuel rest
      else ReadRes.mk (some (lineCmd t)) eof false

/-- SimpleShellReader.ReadCommand (src/shell.go 104-154) run against the
remaining input stream. -/
def readCommand (s : List Char) : ReadRes :=
  readCommandAux (s.length + 1) s

/-- Abstract outcome of the race in Execute (src/jq.go 225-233) between
the stop channel and the process-completion channel. -/
inductive RaceResult where
  | stopFired
  | processDone (waitErr : Option GoError)
deriving DecidableEq, Repr

/-- Result of Execute: both byte counters, the returned error and whether
cmd.Process.Kill was invoked. -/
structure ExecOutcome where
  nout : Nat
  nerr : Nat
  err : Option GoError
  killed : Bool
deriving DecidableEq, Repr

/-- Control flow of Execute (src/jq.go 201-237) after the subprocess
setup: a Start failure returns immediately with zero counts; otherwise
the select races stop against completion.  The stop branch calls
cmd.Process.Kill but assigns Kill's result to a freshly shadowed err
(line 227: err := cmd.Process.Kill()), so the function's returned err is
still the nil value left by the successful Start.  The byte counts and
the race outcome are produced by the external process and enter as
parameters. -/
def ExecuteModel (startErr : Option GoError) (race : RaceResult)
    (nout nerr : Nat) : ExecOutcome :=
  match startErr with
  | some e => ExecOutcome.mk 0 0 (some e) false
  | none =>
    match race with
    | RaceResult.stopFired => ExecOutcome.mk nout nerr none true
    | RaceResult.processDone we => ExecOutcome.mk nout nerr we false

/-- Argument vector Execute passes to the jq binary (src/jq.go 207-211):
an optional color flag followed by the joined filter expression. -/
def executeArgs (color : Bool) (s : JQStack) : List String :=
  (if color then ["--color-output"] else []) ++ [JoinFilter s.JQFilter]

/-- Filter-pushing loops of cmdPush and cmdPeek (src/commands.go 260-265
and 289-294): push each argument as a FilterString, silently skipping
empty strings. -/
def pushNonEmpty (args : List String) (s : JQStack) : JQStack :=
  args.foldl (fun st arg => if arg = "" then st else st.Push (FilterString arg)) s

/-- Embedding of cmdPush (src/commands.go 277-304): push the non-empty
arguments, validate the joined filter with testFilter (which runs the
external jq process against empty input; its outcome is the validateErr
parameter), pop one entry and fail if validation failed, otherwise run
the implicit :write unless -q was given (the write's outcome is the
writeErr parameter; it does not touch the stack). -/
def cmdPush (args : List String) (quiet : Bool)
    (validateErr writeErr : Option GoError) (s : JQStack) :
    JQStack × Option GoError :=
  let s1 := pushNonEmpty args s
  match validateErr with
  | some e => ((s1.Pop 1).1, some e)
  | none => if quiet then (s1, none) else (s1, writeErr)

/-- Embedding of cmdPeek (src/commands.go 249-275): push the non-empty
arguments, run :write on the enlarged stack (outcome writeErr), then pop
len(filters) entries counting every argument, empty ones included, and
discard Pop's result and error. -/
def cmdPeek (args : List String) (writeErr : Option GoError) (s : JQStack) :
    JQStack × Option GoError :=
  let s1 := pushNonEmpty args s
  let s2 := (s1.Pop args.length).1
  match writeErr with
  | some _ => (s2, some (GoError.errorf ("invalid filter")))
  | none => (s2, none)

/-- Stack effect of one loop iteration processing a push command
(src/jqsh.go 280-323 composed with cmdPush): the loop runs cmdPush; a
push error is only logged; after a successful push the loop runs an
implicit write (outcome loopWriteErr) and on its failure reverts by
executing ["pop", npush] with npush = len(args) (or 1 when there are no
arguments), whose own write outcome is only logged and cannot move the
stack. -/
def loopPushCycle (args : List String)
    (validateErr writeErr loopWriteErr : Option GoError) (s : JQStack) :
    JQStack :=
  let r := cmdPush args false validateErr writeErr s
  let s1 := r.1
  match r.2 with
  | some _ => s1
  | none =>
    match loopWriteErr with
    | none => s1
    | some _ =>
      let npush := if args.length = 0 then 1 else args.length
      (cmdPop [toString npush] false none s1).1

/-- Input-source fields of JQShell (src/jqsh.go 157-168): the current
file name ("" when none), whether that file is temporary, and whether a
deferred input producer function is set. -/
structure InputState where
  filename : String
  istmp : Bool
  hasInputFn : Bool
deriving DecidableEq, Repr

/-- JQShell.ClearInput (src/jqsh.go 238-249): drop the producer function
and, when the current input is a non-empty file name marked temporary,
remove that file (a removal failure is only logged).  The second
component lists the paths passed to os.Remove. -/
def ClearInput (jq : InputState) : InputState × List String :=
  let jq1 := if jq.hasInputFn then InputState.mk jq.filename jq.istmp false else jq
  if jq1.filename ≠ "" && jq1.istmp then (jq1, [jq1.filename]) else (jq1, [])

/-- JQShell.SetInputFile (src/jqsh.go 197-202): ClearInput, then install
the new file path and its temporary flag. -/
def SetInputFile (jq : InputState) (path : String) (istmp : Bool) :
    InputState × List String :=
  let r := ClearInput jq
  (InputState.mk path istmp false, r.2)

/-- JQShell.SetInput (src/jqsh.go 204-207): ClearInput, then install a
producer function. -/
def SetInput (jq : InputState) : InputState × List String :=
  let r := ClearInput jq
  (InputState.mk r.1.filename r.1.istmp true, r.2)

/-- Embedding of cmdLoad (src/commands.go 380-414): exactly one file
name, an open/close probe of that file (outcome openOk), then the input
fields are assigned directly - jq.filename = args[0], jq.istmp = false -
without ClearInput or SetInputFile, the stack is cleared unless -k was
given, and the implicit :write runs unless -q was given.  The third
component lists the paths passed to os.Remove (always empty here). -/
def cmdLoad (jq : InputState) (s : JQStack) (args : List String)
    (openOk keepStack quiet : Bool) (writeErr : Option GoError) :
    InputState × JQStack × List String × Option GoError :=
  match args with
  | [arg] =>
    if openOk then
      let jq1 := InputState.mk arg false jq.hasInputFn
      let s1 := if keepStack then s else s.PopAll
      (jq1, s1, [], if quiet then none else writeErr)
    else (jq, s, [], some (GoError.errorf ("open failed")))
  | _ => (jq, s, [], some (GoError.errorf ("expects one filename")))

/-- A command handler, reduced to its error outcome: the Go handlers also
mutate the shell, but the dispatch plumbing of Lib only inspects the
returned error. -/
def Handler := List String → Option GoError

/-- The dispatch library (src/commands.go 26-31): registered commands and
static help topics.  The Go maps are modelled as association lists looked
up by key; Register only ever inserts untaken names, so duplicate keys
never arise. -/
structure Lib where
  cmds : List (String × Handler)
  topics : List (String × List String)

/-- Lib.taken (src/commands.go 119-129): the panic message when the name
is already a command or already a help topic, none when it is free. -/
def Lib.taken (lib : Lib) (name : String) : Option String :=
  if (lib.cmds.lookup name).isSome then
    some ("\"" ++ name ++ "\" command already registered")
  else if (lib.topics.lookup name).isSome then
    some ("\"" ++ name ++ "\" help topic already registered")
  else none

/-- Lib.Register (src/commands.go 99-107): panic - modelled as
Except.error - when the name is taken, otherwise record the command.
(The mutex of the Go code serialises registration; the model is already
sequential.) -/
def Lib.Register (lib : Lib) (name : String) (cmd : Handler) :
    Except String Lib :=
  match lib.taken name with
  | some msg => Except.error msg
  | none => Except.ok (Lib.mk ((name, cmd) :: lib.cmds) lib.topics)

/-- Lib.RegisterHelp (src/commands.go 109-117): panic when the name is
taken, otherwise record the topic. -/
def Lib.RegisterHelp (lib : Lib) (name : String) (docs : List String) :
    Except String Lib :=
  match lib.taken name with
  | some msg => Except.error msg
  | none => Except.ok (Lib.mk lib.cmds ((name, docs) :: lib.topics))

/-- Lib.exec (src/commands.go 151-161): unknown names yield a recoverable
error; a handler error is wrapped into ExecError together with the
attempted name and arguments. -/
def Lib.exec (lib : Lib) (name : String) (args : List String) :
    Option GoError :=
  match lib.cmds.lookup name with
  | none => some (GoError.errorf (name ++ ": unknown command"))
  | some cmd =>
    match cmd args with
    | some e => some (GoError.execError (name :: args) e)
    | none => none

/-- What the session loop does with one executed command's outcome. -/
inductive LoopAction where
  | stop
  | logError (e : GoError)
  | logEmpty
  | autoWrite
  | ready
deriving DecidableEq, Repr

/-- Decision logic of one iteration of JQShell.loop (src/jqsh.go
286-323) after jq.execute returned err for the command cmd read with the
eof flag: a shell-exit outcome stops the loop, end-of-input stops the
loop, any other error is logged and the loop continues, an empty command
is logged, and non-output commands trigger the implicit write. -/
def loopStep (cmd : List String) (err : Option GoError) (eof : Bool) :
    LoopAction :=
  if isShellExit err then LoopAction.stop
  else if eof then LoopAction.stop
  else
    match err with
    | some e => LoopAction.logError e
    | none =>
      match cmd with
      | [] => LoopAction.logEmpty
      | c :: _ =>
        if c = "write" || c = "raw" || c = "filter" || c = "script" ||
            c = "help" || c = "sh" then LoopAction.ready
        else LoopAction.autoWrite

/-! Helper lemmas. -/

theorem take_length_append {α : Type} (l₁ l₂ : List α) :
    (l₁ ++ l₂).take l₁.length = l₁ := by
  induction l₁ with
  | nil => simp
  | cons a t ih => simp [ih]

theorem drop_length_cons_append {α : Type} (l₁ : List α) (c : α) (l₂ : List α) :
    (l₁ ++ c :: l₂).drop (l₁.length + 1) = l₂ := by
  induction l₁ with
  | nil => simp
  | cons a t ih => simp [ih]

theorem string_append_assoc (a b c : String) : a ++ b ++ c = a ++ (b ++ c) := by
  apply String.ext
  simp [String.data_append, List.append_assoc]

theorem goStringsJoin_foldl (sep : String) (rest : List String) (e : String) :
    rest.foldl (fun acc s => acc ++ sep ++ s) e = joinedSpec sep (e :: rest) := by
  induction rest generalizing e with
  | nil => simp [joinedSpec]
  | cons r rs ih =>
    have h := ih (e ++ sep ++ r)
    simp only [List.foldl_cons] at *
    rw [h]
    cases rs with
    | nil => simp [joinedSpec]
    | cons z zs =>
      simp only [joinedSpec]
      rw [string_append_assoc (e ++ sep) r sep, string_append_assoc (e ++ sep) (r ++ sep) _,
        string_append_assoc r sep _]

theorem goStringsJoin_eq_joinedSpec (sep : String) (fs : List String) :
    goStringsJoin fs sep = joinedSpec sep fs := by
  cases fs with
  | nil => rfl
  | cons e rest => simpa [goStringsJoin] using goStringsJoin_foldl sep rest e

theorem pushNonEmpty_eq (args : List String) (s : JQStack) :
    pushNonEmpty args s
      = JQStack.mk (s.pipe ++ (args.filter (fun a => a != "")).map FilterString) := by
  induction args generalizing s with
  | nil => simp [pushNonEmpty]
  | cons a t ih =>
    have hstep : pushNonEmpty (a :: t) s
        = pushNonEmpty t (if a = "" then s else s.Push (FilterString a)) := rfl
    rw [hstep]
    by_cases ha : a = ""
    · rw [if_pos ha, ih s]
      simp [List.filter_cons, ha]
    · rw [if_neg ha, ih (s.Push (FilterString a))]
      simp [JQStack.Push, List.filter_cons, ha]

theorem readBytesNL_rest_lt (s : List Char) (h : (readBytesNL s).2.2 = false) :
    (readBytesNL s).2.1.length < s.length := by
  induction s with
  | nil => simp [readBytesNL] at h
  | cons c cs ih =>
    by_cases hc : c = '\n'
    · simp [readBytesNL, hc]
    · simp only [readBytesNL, if_neg hc] at h ⊢
      exact Nat.lt_succ_of_lt (ih h)

theorem readBytesNL_append_newline (l rest : List Char) (h : '\n' ∉ l) :
    readBytesNL (l ++ '\n' :: rest) = (l ++ ['\n'], rest, false) := by
  induction l with
  | nil => simp [readBytesNL]
  | cons c cs ih =>
    have hc : c ≠ '\n' := fun hc => h (hc ▸ List.mem_cons_self c cs)
    have hcs : '\n' ∉ cs := fun hm => h (List.mem_cons_of_mem c hm)
    simp [readBytesNL, hc, ih hcs]

theorem readCommandAux_congr (f₁ : Nat) :
    ∀ (f₂ : Nat) (s : List Char), s.length < f₁ → s.length < f₂ →
      readCommandAux f₁ s = readCommandAux f₂ s := by
  induction f₁ with
  | zero => intro f₂ s h₁ _; exact absurd h₁ (Nat.not_lt_zero _)
  | succ g₁ ih =>
    intro f₂ s h₁ h₂
    cases f₂ with
    | zero => exact absurd h₂ (Nat.not_lt_zero _)
    | succ g₂ =>
      by_cases heof : (readBytesNL s).2.2 = true
      · simp [readCommandAux, heof]
      · have heof' : (readBytesNL s).2.2 = false := by
          cases hb : (readBytesNL s).2.2
          · rfl
          · exact absurd hb heof
        have hrest := readBytesNL_rest_lt s heof'
        simp only [readCommandAux, heof', Bool.false_and]
        split_ifs
        all_goals
          first
          | rfl
          | exact ih g₂ (readBytesNL s).2.1
              (Nat.lt_of_lt_of_le hrest (Nat.le_of_lt_succ h₁))
              (Nat.lt_of_lt_of_le hrest (Nat.le_of_lt_succ h₂))
          | simp_all

theorem dropWhile_append_of_ne_nil {p : Char → Bool} (l₁ l₂ : List Char)
    (h : l₁.dropWhile p ≠ []) :
    (l₁ ++ l₂).dropWhile p = l₁.dropWhile p ++ l₂ := by
  induction l₁ with
  | nil => simp [List.dropWhile] at h
  | cons c cs ih =>
    by_cases hc : p c
    · simp only [List.cons_append, List.dropWhile_cons, hc, if_true] at h ⊢
      exact ih h
    · simp [List.dropWhile_cons, hc]

theorem dropWhile_append_of_nil {p : Char → Bool} (l₁ l₂ : List Char)
    (h : l₁.dropWhile p = []) :
    (l₁ ++ l₂).dropWhile p = l₂.dropWhile p := by
  induction l₁ with
  | nil => simp
  | cons c cs ih =>
    by_cases hc : p c
    · simp only [List.cons_append, List.dropWhile_cons, hc, if_true] at h ⊢
      exact ih h
    · simp [List.dropWhile_cons, hc] at h

theorem trimGo_append_space (l : List Char) (c : Char) (hc : goIsSpace c = true) :
    trimGo (l ++ [c]) = trimGo l := by
  unfold trimGo
  by_cases h : l.dropWhile goIsSpace = []
  · rw [dropWhile_append_of_nil l [c] h, h]
    simp [List.dropWhile, hc]
  · rw [dropWhile_append_of_ne_nil l [c] h]
    simp only [List.reverse_append, List.reverse_cons, List.reverse_nil,
      List.nil_append, List.singleton_append, List.dropWhile_cons, hc]
    simp

theorem trimGo_newline (l : List Char) : trimGo (l ++ ['\n']) = trimGo l :=
  trimGo_append_space l '\n' (by decide)

theorem readCommandAux_append_line (fuel : Nat) (l rest : List Char)
    (h : '\n' ∉ l) :
    readCommandAux (fuel + 1) (l ++ '\n' :: rest) =
      if (trimGo l).isEmpty then readCommandAux fuel rest
      else ReadRes.mk (some (lineCmd (trimGo l))) false false := by
  simp only [readCommandAux, readBytesNL_append_newline l rest h, Bool.false_and,
    trimGo_newline l]
  split_ifs
  all_goals first | rfl | simp_all

theorem readCommand_append_line (l rest : List Char) (h : '\n' ∉ l) :
    readCommand (l ++ '\n' :: rest) =
      if (trimGo l).isEmpty then readCommand rest
      else ReadRes.mk (some (lineCmd (trimGo l))) false false := by
  unfold readCommand
  rw [readCommandAux_append_line ((l ++ '\n' :: rest).length) l rest h]
  by_cases ht : (trimGo l).isEmpty
  · rw [if_pos ht, if_pos ht]
    exact readCommandAux_congr ((l ++ '\n' :: rest).length) (rest.length + 1) rest
      (by simp only [List.length_append, List.length_cons]; omega) (by omega)
  · rw [if_neg ht, if_neg ht]

theorem indexOfPlus_append (pre post : List Char) (h : '+' ∉ pre) :
    indexOfPlus (pre ++ '+' :: post) = some pre.length := by
  induction pre with
  | nil => simp [indexOfPlus]
  | cons c cs ih =>
    have hc : c ≠ '+' := fun hc => h (hc ▸ List.mem_cons_self c cs)
    have hcs : '+' ∉ cs := fun hm => h (List.mem_cons_of_mem c hm)
    simp [indexOfPlus, hc, ih hcs]

theorem foldl_append_eq_join (pipe : List GoFilter) (init : List String) :
    pipe.foldl (fun args cmd => args ++ cmd) init = init ++ pipe.join := by
  induction pipe generalizing init with
  | nil => simp
  | cons f t ih => simp [ih, List.append_assoc]

theorem JQFilter_eq_join (s : JQStack) : s.JQFilter = s.pipe.join := by
  simpa using foldl_append_eq_join s.pipe []

theorem lineCmd_colon (xs : List Char) : lineCmd (':' :: xs) = colonTokenize xs := by
  simp [lineCmd]

/-! Claim theorems. -/

/-- C1: for every pop request with count n >= 1 (given as the string a, or
omitted for the default count 1) against a filter stack of depth d, run
with -q so the outcome is the pop outcome alone: if d = 0 the command
signals StackEmpty and removes nothing; if d > 0 it removes exactly
min(n, d) most-recently-pushed entries (keeping the first d - min(n, d))
and signals no error. -/
theorem cmdPop_min_semantics (a : String) (n : Int) (writeErr : Option GoError)
    (s : JQStack) (hp : goAtoi a = some n) (h1 : 1 ≤ n) :
    (s.pipe = [] → cmdPop [a] true writeErr s = (s, some GoError.stackEmpty)) ∧
    (s.pipe ≠ [] → cmdPop [a] true writeErr s
        = (JQStack.mk (s.pipe.take (s.pipe.length - min n.toNat s.pipe.length)),
           none)) ∧
    (s.pipe = [] → cmdPop [] true writeErr s = (s, some GoError.stackEmpty)) ∧
    (s.pipe ≠ [] → cmdPop [] true writeErr s
        = (JQStack.mk (s.pipe.take (s.pipe.length - min 1 s.pipe.length)),
           none)) := by
  have hn : ¬ n < 0 := by omega
  refine ⟨fun h => ?_, fun h => ?_, fun h => ?_, fun h => ?_⟩
  · simp [cmdPop, hp, hn, cmdPopN, JQStack.Pop, h]
  · have hlen : ¬ s.pipe.length = 0 := by simp [List.length_eq_zero, h]
    simp [cmdPop, hp, hn, cmdPopN, JQStack.Pop, hlen]
  · simp [cmdPop, cmdPopN, JQStack.Pop, h]
  · have hlen : ¬ s.pipe.length = 0 := by simp [List.length_eq_zero, h]
    simp [cmdPop, cmdPopN, JQStack.Pop, hlen]

/-- Witness for C1: popping 2 from the depth-3 stack x,y,z leaves x and no
error. -/
theorem cmdPop_min_semantics_witness :
    cmdPop [("2")] true none
        (JQStack.mk [FilterString ("x"), FilterString ("y"), FilterString ("z")])
      = (JQStack.mk [FilterString ("x")], none) := by
  have h := (cmdPop_min_semantics ("2") 2 none
      (JQStack.mk [FilterString ("x"), FilterString ("y"), FilterString ("z")])
      (by decide) (by decide)).2.1 (by decide)
  exact h.trans (by decide)

/-- C2: the joined query expression of a filter stack is its fragment
list, in push order, joined with the separator " | ", and the empty
fragment list joins to "."; together with the concrete examples of the
spec (stack hello,world joins to "hello | world"; stack ! joins to "!"). -/
theorem joinFilter_spec (s : JQStack) :
    (s.JQFilter = [] → JoinFilter s.JQFilter = ".") ∧
    (s.JQFilter ≠ [] →
      JoinFilter s.JQFilter = joinedSpec (" | ") s.JQFilter) ∧
    JoinFilter (JQStack.mk [FilterString ("hello"), FilterString ("world")]).JQFilter
      = "hello | world" ∧
    JoinFilter (JQStack.mk [FilterString ("!")]).JQFilter = "!" ∧
    JoinFilter (JQStack.mk []).JQFilter = "." := by
  refine ⟨fun h => ?_, fun h => ?_, by decide, by decide, by decide⟩
  · simp [JoinFilter, h]
  · have hlen : ¬ s.JQFilter.length = 0 := by simp [List.length_eq_zero, h]
    have hj := goStringsJoin_eq_joinedSpec FilterJoinString s.JQFilter
    simpa [JoinFilter, hlen, FilterJoinString] using hj

/-- Witness for C2: the general clauses evaluated on the empty stack and
on the two-fragment stack a,b. -/
theorem joinFilter_spec_witness :
    JoinFilter (JQStack.mk []).JQFilter = "." ∧
    JoinFilter (JQStack.mk [FilterString ("a"), FilterString ("b")]).JQFilter
      = joinedSpec (" | ")
          (JQStack.mk [FilterString ("a"), FilterString ("b")]).JQFilter := by
  exact ⟨(joinFilter_spec (JQStack.mk [])).1 (by decide),
    (joinFilter_spec (JQStack.mk [FilterString ("a"), FilterString ("b")])).2.1
      (by decide)⟩

/-- C3 (the code evaluated at the failing input): on the input consisting
of the single blank line "\n", ReadCommand skips the blank line (the
source re-reads at src/shell.go 124), hits end of input and returns no
command at all together with the io.EOF error - not the write command
with no arguments that doc.go ("Blank lines are also a shorthand ...
equivalent to the write command") and the test table (input "\n" expects
command write) both promise. -/
theorem readCommand_blank_line_no_write :
    readCommand (("\n").toList) = ReadRes.mk none true true ∧
    (none : Option (List String)) ≠ some ["write"] := by
  exact ⟨by decide, by decide⟩

/-- C4 counterexample: the claim says every explicit ":" line containing a
"+" gets the text before the "+" whitespace-tokenised and the text after
it appended verbatim, which on ":+a" would produce the single argument
list a; the code only slurps when the first "+" is at a positive index
(src/shell.go 144: plusi > 0), so ":+a" is whitespace-tokenised to the
command list +a instead. -/
theorem readCommand_plus_at_start_cex :
    readCommand ((":+a").toList ++ '\n' :: []) = ReadRes.mk (some ["+a"]) false false ∧
    (["+a"] : List String) ≠ ["a"] := by
  exact ⟨by decide, by decide⟩

/-- C4 as amended: for every explicit command line whose trimmed text is a
colon followed by some text in which the first "+" sits at index >= 1,
ReadCommand tokenises the text before that first "+" on whitespace and
appends everything after it, up to end of line, as one final argument
that is not further whitespace-split. -/
theorem readCommand_plus_slurp (l pre post rest : List Char)
    (hnl : '\n' ∉ l)
    (ht : trimGo l = ':' :: (pre ++ '+' :: post))
    (hpre : '+' ∉ pre) (hne : pre ≠ []) :
    readCommand (l ++ '\n' :: rest)
      = ReadRes.mk (some (goFields pre ++ [String.mk post])) false false := by
  rw [readCommand_append_line l rest hnl]
  have htne : ¬ (trimGo l).isEmpty = true := by
    rw [ht]
    simp
  rw [if_neg htne, ht]
  have hidx := indexOfPlus_append pre post hpre
  have hlen : 0 < pre.length := List.length_pos.mpr hne
  rw [lineCmd_colon (pre ++ '+' :: post)]
  simp only [colonTokenize, hidx, Option.some.injEq, if_pos hlen]
  rw [take_length_append pre ('+' :: post), drop_length_cons_append pre '+' post]

/-- Witness for C4 (the spec's own example): the line ":push +.items | .[]"
parses to the push command with the single verbatim argument
".items | .[]". -/
theorem readCommand_plus_slurp_witness :
    readCommand ((":push +.items | .[]").toList ++ '\n' :: [])
      = ReadRes.mk (some ["push", ".items | .[]"]) false false := by
  have h := readCommand_plus_slurp ((":push +.items | .[]").toList)
      (("push ").toList) ((".items | .[]").toList) []
      (by decide) (by decide) (by decide) (by decide)
  exact h.trans (by decide)

/-- C5 counterexample: when the cancel signal wins the race, Execute does
kill the external process, but the value it returns as its error is none -
the very value that means success - because line 227 of src/jq.go assigns
the result of cmd.Process.Kill to a freshly shadowed err and the outer err
still holds the nil left by the successful Start.  The claim's "returns a
cancelled status distinct from success" would require the err component to
differ from none. -/
theorem execute_cancel_returns_nil_cex :
    (ExecuteModel none RaceResult.stopFired 0 0).killed = true ∧
    (ExecuteModel none RaceResult.stopFired 0 0).err = none := by
  exact ⟨by decide, by decide⟩

/-- C5 as amended: if the cancel signal fires before the external process
completes, the process is forcibly terminated but the call returns the
nil (success) status rather than a distinct cancelled status; if the
process finishes first, the call returns that process's exit status; a
start failure is returned as such with zero byte counts. -/
theorem execute_race_semantics (nout nerr : Nat) (we : Option GoError)
    (e : GoError) (race : RaceResult) :
    ExecuteModel none RaceResult.stopFired nout nerr
      = ExecOutcome.mk nout nerr none true ∧
    ExecuteModel none (RaceResult.processDone we) nout nerr
      = ExecOutcome.mk nout nerr we false ∧
    ExecuteModel (some e) race nout nerr
      = ExecOutcome.mk 0 0 (some e) false := by
  refine ⟨rfl, rfl, ?_⟩
  cases race <;> rfl

/-- C6 counterexample: a push of the two filters a, b onto the stack x
whose validation fails pops only one entry (src/commands.go 297:
jq.Stack.Pop(1)), leaving the stack x, a - not the pre-push stack x.  So
a failed push is not atomic for multi-argument pushes. -/
theorem push_revert_not_atomic_cex :
    loopPushCycle [("a"), ("b")] (some (GoError.errorf ("compile error"))) none
        none (JQStack.mk [FilterString ("x")])
      = JQStack.mk [FilterString ("x"), FilterString ("a")] ∧
    JQStack.mk [FilterString ("x"), FilterString ("a")]
      ≠ JQStack.mk [FilterString ("x")] := by
  exact ⟨by decide, by decide⟩

/-- C6 as amended: a push whose validation fails pops exactly one entry,
so the stack is restored exactly when the push carried one non-empty
argument (the shell's single-argument shorthand); and when the loop's
implicit auto-write fails after an otherwise successful push of n >= 1
non-empty arguments, the loop pops n entries and restores the pre-push
stack.  (A failure of cmdPush's own internal write is returned as an
error without any revert; cmdPop parses the revert count with Atoi, and
the count is the argument tally, hence the parse hypothesis.) -/
theorem push_revert_semantics (a : String) (args : List String)
    (ve lwe : Option GoError) (s : JQStack)
    (ha : a ≠ "") (hve : ve.isSome)
    (hargs : args ≠ []) (hall : ∀ x ∈ args, x ≠ "") (hlwe : lwe.isSome)
    (hatoi : goAtoi (toString args.length) = some (args.length : Int)) :
    loopPushCycle [a] ve none none s = s ∧
    loopPushCycle args none none lwe s = s := by
  constructor
  · match ve, hve with
    | some e, _ =>
      have hpush : pushNonEmpty [a] s = JQStack.mk (s.pipe ++ [FilterString a]) := by
        rw [pushNonEmpty_eq]
        simp [ha]
      simp only [loopPushCycle, cmdPush, hpush, JQStack.Pop]
      have hlen : ¬ (s.pipe ++ [FilterString a]).length = 0 := by simp
      simp only [hlen, if_neg hlen]
      simp [take_length_append s.pipe [FilterString a]]
  · have hfilter : args.filter (fun x => x != "") = args := by
      apply List.filter_eq_self.mpr
      intro x hx
      simpa using hall x hx
    have hpush : pushNonEmpty args s
        = JQStack.mk (s.pipe ++ args.map FilterString) := by
      rw [pushNonEmpty_eq, hfilter]
    match lwe, hlwe with
    | some e, _ =>
      have hnz : ¬ args.length = 0 := by simp [List.length_eq_zero, hargs]
      have hlen : ¬ (s.pipe ++ args.map FilterString).length = 0 := by
        simp only [List.length_append, List.length_map]
        omega
      have hnneg : ¬ ((args.length : Int)) < 0 := by omega
      have hmin : min ((args.length : Int)).toNat
          (s.pipe ++ args.map FilterString).length = args.length := by
        simp only [List.length_append, List.length_map]
        omega
      have hmin' : min args.length (s.pipe ++ args.map FilterString).length
          = args.length := by
        simp only [List.length_append, List.length_map]
        omega
      have htake : (s.pipe ++ args.map FilterString).length - args.length
          = s.pipe.length := by
        simp only [List.length_append, List.length_map]
        omega
      simp [loopPushCycle, cmdPush, hpush, cmdPop, cmdPopN, JQStack.Pop, hatoi,
        hnz, hlen, hnneg, hmin, hmin', htake, take_length_append]

/-- Witness for C6 as amended: a failing one-argument push is reverted;
and a two-argument push followed by a failing loop auto-write is reverted
to the pre-push stack x. -/
theorem push_revert_semantics_witness :
    loopPushCycle [(".a")] (some GoError.stackEmpty) none none
        (JQStack.mk [FilterString ("x")]) = JQStack.mk [FilterString ("x")] ∧
    loopPushCycle [(".a"), (".b")] none none (some GoError.stackEmpty)
        (JQStack.mk [FilterString ("x")]) = JQStack.mk [FilterString ("x")] := by
  constructor
  · exact (push_revert_semantics (".a") [(".a")] (some GoError.stackEmpty)
      (some GoError.stackEmpty) (JQStack.mk [FilterString ("x")]) (by decide)
      (by decide) (by decide) (by decide) (by decide) (by decide)).1
  · exact (push_revert_semantics (".a") [(".a"), (".b")] (some GoError.stackEmpty)
      (some GoError.stackEmpty) (JQStack.mk [FilterString ("x")]) (by decide)
      (by decide) (by decide) (by decide) (by decide) (by decide)).2

/-- C7 (the code evaluated at the failing input): with the current input
set to the temporary file /tmp/jqsh-exec-1 (istmp = true), the command
load data.json assigns the new file name directly (src/commands.go
405-406) without going through ClearInput / SetInputFile, so the list of
paths handed to os.Remove is empty and the old temporary file is leaked;
by contrast the SetInputFile path used by cmdExec and the pipe command
removes exactly the old file, once. -/
theorem cmdLoad_leaks_old_tempfile :
    cmdLoad (InputState.mk ("/tmp/jqsh-exec-1") true false) (JQStack.mk [])
        [("data.json")] true false false none
      = (InputState.mk ("data.json") false false, JQStack.mk [], [], none) ∧
    ([] : List String) ≠ [("/tmp/jqsh-exec-1")] ∧
    SetInputFile (InputState.mk ("/tmp/jqsh-exec-1") true false) ("data.json") false
      = (InputState.mk ("data.json") false false, [("/tmp/jqsh-exec-1")]) := by
  exact ⟨by decide, by decide, by decide⟩

/-- C8: for a command processed before end of input, the session loop
stops exactly when the command's outcome satisfies isShellExit; the
shell-exit sentinel is recognised through any nesting inside the
composite ExecError produced by Lib.exec wrapping a handler error with
the attempted name and arguments; every other handler error makes the
loop log the error and continue.  (End of input additionally stops the
loop; the spec lists that as a separate rule and this claim concerns the
outcome-driven rule, hence the eof = false instantiation.) -/
theorem loop_exit_semantics (cmdv : List String) (err : Option GoError)
    (lib : Lib) (name : String) (args : List String) (h : Handler) :
    (loopStep cmdv err false = LoopAction.stop ↔ isShellExit err = true) ∧
    (∀ (c : List String) (e : GoError),
      isShellExit (some (GoError.execError c e)) = isShellExit (some e)) ∧
    (∀ e : GoError, isShellExit (some e) = false →
      loopStep cmdv (some e) false = LoopAction.logError e) ∧
    (lib.cmds.lookup name = some h → h args = some GoError.shellExit →
      lib.exec name args
          = some (GoError.execError (name :: args) GoError.shellExit) ∧
      loopStep cmdv (lib.exec name args) false = LoopAction.stop) := by
  refine ⟨?_, fun c e => rfl, fun e he => by simp [loopStep, he], ?_⟩
  · by_cases hse : isShellExit err = true
    · simp [loopStep, hse]
    · have hse' : isShellExit err = false := by simpa using hse
      cases err with
      | none =>
        cases cmdv with
        | nil => simp [loopStep, hse']
        | cons c t =>
          simp only [loopStep, hse']
          split_ifs <;> simp_all
      | some e => simp [loopStep, hse']
  · intro hlook hres
    have hexec : lib.exec name args
        = some (GoError.execError (name :: args) GoError.shellExit) := by
      simp [Lib.exec, hlook, hres]
    refine ⟨hexec, ?_⟩
    rw [hexec]
    simp [loopStep, isShellExit, isShellExitErr]

/-- Witness for C8: a library with the quit command; executing quit yields
the wrapped shell-exit error and the loop stops on it. -/
theorem loop_exit_semantics_witness :
    Lib.exec (Lib.mk [(("quit"), fun _ => some GoError.shellExit)] []) ("quit") []
      = some (GoError.execError [("quit")] GoError.shellExit) ∧
    loopStep [("quit")]
        (Lib.exec (Lib.mk [(("quit"), fun _ => some GoError.shellExit)] [])
          ("quit") []) false
      = LoopAction.stop := by
  exact (loop_exit_semantics [("quit")] none
      (Lib.mk [(("quit"), fun _ => some GoError.shellExit)] []) ("quit") []
      (fun _ => some GoError.shellExit)).2.2.2 rfl rfl

/-- C9: registering a name already registered as a command or as a help
topic fails fatally at registration time - Register and RegisterHelp
panic, modelled as the Except.error channel - while registering a fresh
name succeeds and records the entry; and at execution time an
unregistered name produces only the recoverable unknown-command error,
never the registration panic (Lib.exec has no fatal channel at all). -/
theorem register_conflict_fatal (lib : Lib) (name : String) (h : Handler)
    (docs : List String) (args : List String) :
    (lib.taken name ≠ none →
      (∃ msg, lib.Register name h = Except.error msg) ∧
      (∃ msg, lib.RegisterHelp name docs = Except.error msg)) ∧
    (lib.taken name = none →
      lib.Register name h = Except.ok (Lib.mk ((name, h) :: lib.cmds) lib.topics) ∧
      lib.RegisterHelp name docs
        = Except.ok (Lib.mk lib.cmds ((name, docs) :: lib.topics))) ∧
    (lib.cmds.lookup name = none →
      lib.exec name args = some (GoError.errorf (name ++ ": unknown command"))) := by
  refine ⟨fun htaken => ?_, fun hfree => ?_, fun hlook => ?_⟩
  · cases hm : lib.taken name with
    | none => exact absurd hm htaken
    | some msg =>
      exact ⟨⟨msg, by simp [Lib.Register, hm]⟩,
        ⟨msg, by simp [Lib.RegisterHelp, hm]⟩⟩
  · exact ⟨by simp [Lib.Register, hfree], by simp [Lib.RegisterHelp, hfree]⟩
  · simp [Lib.exec, hlook]

/-- Witness for C9: with quit registered, registering quit again panics,
registering the fresh name push succeeds, and executing the unregistered
name peek yields the recoverable unknown-command error. -/
theorem register_conflict_fatal_witness :
    (∃ msg, Lib.Register (Lib.mk [(("quit"), fun _ => none)] []) ("quit")
        (fun _ => none) = Except.error msg) ∧
    Lib.Register (Lib.mk [(("quit"), fun _ => none)] []) ("push") (fun _ => none)
      = Except.ok (Lib.mk [(("push"), fun _ => none), (("quit"), fun _ => none)] []) ∧
    Lib.exec (Lib.mk [(("quit"), fun _ => none)] []) ("peek") []
      = some (GoError.errorf (("peek") ++ ": unknown command")) := by
  refine ⟨?_, ?_, ?_⟩
  · exact ((register_conflict_fatal (Lib.mk [(("quit"), fun _ => none)] [])
      ("quit") (fun _ => none) [] []).1 (by simp [Lib.taken, List.lookup])).1
  · exact ((register_conflict_fatal (Lib.mk [(("quit"), fun _ => none)] [])
      ("push") (fun _ => none) [] []).2.1 (by simp [Lib.taken, List.lookup])).1
  · exact (register_conflict_fatal (Lib.mk [(("quit"), fun _ => none)] [])
      ("peek") (fun _ => none) [] []).2.2 (by simp [List.lookup])

/-- C10 counterexample: peek with the argument list containing the empty
string and .x against the stack .y pushes only .x but pops
len(filters) = 2 entries (src/commands.go 269), removing the pre-existing
entry .y as well; the stack after peek is empty, not the stack before the
call.  The claim explicitly includes argument lists containing empty
strings, and for those the frame effect fails. -/
theorem cmdPeek_empty_arg_cex :
    (cmdPeek [(""), (".x")] none (JQStack.mk [FilterString (".y")])).1
      = JQStack.mk [] ∧
    JQStack.mk [] ≠ JQStack.mk [FilterString (".y")] := by
  exact ⟨by decide, by decide⟩

/-- C10 as amended: for every argument list whose entries are all
non-empty, the filter stack after peek completes equals the stack before
the call - peek pushes its arguments, runs a write, and removes exactly
what it pushed.  (When the list contains empty strings, peek pops the
full argument count while pushing only the non-empty entries, so
pre-existing entries can be removed.) -/
theorem cmdPeek_stack_unchanged (args : List String) (we : Option GoError)
    (s : JQStack) (hall : ∀ a ∈ args, a ≠ "") :
    (cmdPeek args we s).1 = s := by
  have hfilter : args.filter (fun x => x != "") = args :=
    List.filter_eq_self.mpr (fun x hx => by simpa using hall x hx)
  have hpush : pushNonEmpty args s = JQStack.mk (s.pipe ++ args.map FilterString) := by
    rw [pushNonEmpty_eq, hfilter]
  have key : ((pushNonEmpty args s).Pop args.length).1 = s := by
    rw [hpush]
    by_cases hargs : args = []
    · subst hargs
      cases s with
      | mk pipe =>
        simp only [List.map_nil, List.append_nil, List.length_nil, JQStack.Pop]
        split_ifs <;> simp
    · have hlen : ¬ (s.pipe ++ args.map FilterString).length = 0 := by
        have := List.length_pos.mpr hargs
        simp only [List.length_append, List.length_map]
        omega
      have hmin' : min args.length (s.pipe ++ args.map FilterString).length
          = args.length := by
        simp only [List.length_append, List.length_map]
        omega
      have htake : (s.pipe ++ args.map FilterString).length - args.length
          = s.pipe.length := by
        simp only [List.length_append, List.length_map]
        omega
      simp [JQStack.Pop, hlen, hmin', htake, take_length_append, hargs]
  cases we <;> simp [cmdPeek, key]

/-- Witness for C10 as amended: peeking .a, .b over the stack .x leaves
the stack .x. -/
theorem cmdPeek_stack_unchanged_witness :
    (cmdPeek [(".a"), (".b")] none (JQStack.mk [FilterString (".x")])).1
      = JQStack.mk [FilterString (".x")] := by
  exact cmdPeek_stack_unchanged [(".a"), (".b")] none
    (JQStack.mk [FilterString (".x")]) (by decide)

end Jqsh
